import Mathlib

/-!
Verification development for the backup-target file-selection engine of
`restic-interfacer-rs`.

The development shallowly embeds the Rust sources `src/lib.rs` and
`src/backup_target.rs`:

* Filesystem paths are modeled as lists of components (`FsPath`); every path in
  the model is absolute, `[]` being the filesystem root `/`.  Rendering a path
  back to text (`renderAbs`) and splitting glob/pattern text on `/`
  (`splitOnSlash`) connect the two views exactly as Rust `Path` strings do.
* Filesystem effects (canonicalization) are a parameter `canon : Canonicalizer`;
  `canon p = none` models a `std::fs::canonicalize` failure.  A Rust
  `unwrap`/`expect` panic is modeled as the result `none` of an `Option`.
* The external `globset` crate is modeled at its documented interface: a `Glob`
  is a validated pattern text, `GlobSet.is_match` matches a whole path, `*` and
  `?` match within one path component and a `**` component matches any number
  of components.  The validity check `globSyntaxOk` conservatively restricts the
  modeled pattern language to globs without character classes, alternates and
  escapes, the subset that covers every pattern the repository constructs.
* The external `walkdir` crate is modeled by a deterministic pre-order walk of
  an explicit in-memory tree (`FNode`), including the exact semantics of
  `IntoIter::skip_current_dir`: it pops the top of the directory stack, i.e. it
  prunes the contents of the most recently yielded directory when that entry is
  a directory, and it skips the remaining unyielded entries of the parent
  directory when the most recently yielded entry is a file.
* The external `filepath_tree::PathStore` sink is modeled as the list of the
  inserted paths, in insertion order.  The walk additionally records every path
  that is tested against the exclusion matcher (the first component of the
  returned pair), an observability extension used by the pruning claims.
-/

/-- A path component (one segment between `/` separators) as its characters. -/
abbrev Comp := List Char

/-- An absolute filesystem path as its list of components below the root;
`[]` is the filesystem root `/` itself. -/
abbrev FsPath := List Comp

/-- Split a character string on `/`, exactly as the textual form of a path or
glob decomposes into components.  `splitOnSlash "/a/b"` is `["", "a", "b"]`. -/
def splitOnSlash : List Char → List Comp
  | [] => [[]]
  | c :: rest =>
    if c = '/' then [] :: splitOnSlash rest
    else
      match splitOnSlash rest with
      | [] => [[c]]
      | s :: ss => (c :: s) :: ss

/-- Join components with `/` separators (inverse of `splitOnSlash`). -/
def joinSlash : List Comp → List Char
  | [] => []
  | [s] => s
  | s :: ss => s ++ '/' :: joinSlash ss

/-- Render an absolute path to its text: the root is `"/"`, and a non-root path
is `/c1/c2/...`. -/
def renderAbs (p : FsPath) : List Char := '/' :: joinSlash p

/-- Remove every trailing `/` character: Rust `str::trim_end_matches("/")` as
used on pattern text in `MyGlobVisitor::visit_str` (src/backup_target.rs). -/
def trimEndSlashes (s : List Char) : List Char :=
  (s.reverse.dropWhile (fun c => c = '/')).reverse

/-- Rust `Path::ancestors` for an absolute path (src/lib.rs line 301,
src/backup_target.rs line 136): the path itself, then each parent
(`dropLast`) in turn, up to and including the root `/` (i.e. `[]`), longest
first.  Stated as a closed form (the reversed tails of the reversed path) so
that it computes by structural recursion; `mem_pathAncestors` below shows the
list is exactly the set of prefixes of the path. -/
def pathAncestors (p : FsPath) : List FsPath :=
  (List.tails p.reverse).map List.reverse

/-- Validity of a glob pattern text, modeling `globset::Glob::new`'s syntax
check restricted to the pattern subset this development models: no character
classes, no alternates, no escapes.  Within this subset `globset` accepts every
pattern. -/
def globSyntaxOk (s : List Char) : Bool :=
  s.all fun c => !(c == '[' || c == ']' || c == '\x7b' || c == '\x7d' || c == '\\')

/-- A compiled `globset::Glob`: a pattern text that passed validation.  In Rust
a `Glob` value can only be obtained through `Glob::new`, which validates; the
subtype records that invariant. -/
abbrev Glob := {s : List Char // globSyntaxOk s = true}

/-- Model of `globset::Glob::new`: validate the pattern text, `none` being the
`globset::Error` return. -/
def Glob.new (s : List Char) : Option Glob :=
  if h : globSyntaxOk s = true then some ⟨s, h⟩ else none

/-- Model of `Glob::glob`, the stored textual form of the pattern. -/
def Glob.globText (g : Glob) : List Char := g.val

/-- Match one glob component against one path component: `*` matches any
character sequence inside the component, `?` matches exactly one character,
every other character matches itself.  Recursion is structural on the
pattern. -/
def segMatch : List Char → List Char → Bool
  | [], s => s.isEmpty
  | p :: ps, s =>
    if p = '*' then (List.tails s).any fun t => segMatch ps t
    else if p = '?' then
      match s with
      | [] => false
      | _ :: cs => segMatch ps cs
    else
      match s with
      | [] => false
      | c :: cs => (p == c) && segMatch ps cs

/-- Match a list of glob components against a list of path components: a `**`
component matches any number (including zero) of path components, any other
component must match the next path component via `segMatch`. -/
def compsMatch : List Comp → List Comp → Bool
  | [], ss => ss.isEmpty
  | p :: ps, ss =>
    if p = ['*', '*'] then (List.tails ss).any fun t => compsMatch ps t
    else
      match ss with
      | [] => false
      | s :: ss' => segMatch p s && compsMatch ps ss'

/-- Match a glob pattern text against a path text, both split on `/`. -/
def globMatchStr (pat path : List Char) : Bool :=
  compsMatch (splitOnSlash pat) (splitOnSlash path)

/-- Match a compiled glob against an absolute path, as `globset` matches the
path's textual rendering. -/
def Glob.matches (g : Glob) (p : FsPath) : Bool :=
  globMatchStr g.val (renderAbs p)

/-- Model of `globset::GlobSet`: the compiled collection of globs. -/
structure GlobSet where
  globs : List Glob
deriving DecidableEq

/-- Model of `GlobSet::is_match`: does any member glob match the path? -/
def GlobSet.is_match (gs : GlobSet) (p : FsPath) : Bool :=
  gs.globs.any fun g => g.matches p

/-- Model of `GlobSetBuilder::build` (the build step inside
`get_exclusions_as_globset`): `globset` re-compiles each member pattern, which
can only fail on a syntactically invalid pattern; `none` is the error the
source `unwrap`s. -/
def globSetBuild (gs : List Glob) : Option GlobSet :=
  if gs.all (fun g => globSyntaxOk g.val) then some ⟨gs⟩ else none

/-- The `MyGlob` newtype of src/backup_target.rs line 9, modeled transparently
(it derefs to its inner `Glob`). -/
abbrev MyGlob := Glob

/-- Model of `MyGlobVisitor::visit_str` (src/backup_target.rs lines 45-57): a
text beginning with `/` is kept rooted with trailing separators stripped,
any other text is prefixed with `**/` after stripping trailing separators;
the result is compiled by `Glob::new` (`none` is the serde error). -/
def visit_str (value : List Char) : Option MyGlob :=
  if value.head? = some '/' then Glob.new (trimEndSlashes value)
  else Glob.new (['*', '*', '/'] ++ trimEndSlashes value)

/-- Model of `impl Serialize for MyGlob` (src/backup_target.rs lines 27-34):
the serialized text is `&self.glob()[3..]`, the stored pattern text with its
first three bytes removed.  Rust byte slicing panics when the text is shorter
than three bytes; the panic is `none`. -/
def MyGlob.serializeText (g : MyGlob) : Option (List Char) :=
  if g.val.length < 3 then none else some (g.val.drop 3)

/-- Serialize a `MyGlob` and parse the result back, the serde round trip of
claim C4. -/
def myGlobRoundtrip (g : MyGlob) : Option MyGlob :=
  (MyGlob.serializeText g).bind visit_str

/-- The four-state outcome enum of src/backup_target.rs lines 19-25 (the source
spells the fourth state `Irreverent`). -/
inductive BackupFileSelectionType where
  | Irreverent
  | Contains
  | Included
  | Excluded
deriving DecidableEq

/-- The three-state outcome enum of src/lib.rs lines 225-230. -/
inductive BackupFileSelectionTypeL where
  | NotATarget
  | Included
  | Excluded
deriving DecidableEq

/-- The filesystem canonicalization oracle: `canon p = none` models a
`std::fs::canonicalize` failure (missing path, permission error, ...). -/
abbrev Canonicalizer := FsPath → Option FsPath

/-- The `BackupTarget` aggregate (src/backup_target.rs lines 68-73 and
src/lib.rs lines 232-237; the two versions differ only in the `MyGlob`
newtype, which is modeled transparently). -/
structure BackupTarget where
  folders : List FsPath
  exclusions : List MyGlob
  tags : List (List Char)

/-- Canonicalize folders one by one, stopping at the first failure: the
`folders.iter().map(|c| c.canonicalize().expect(..)).collect()` of
`BackupTarget::new`; `none` is the `expect` panic on the first failing
folder. -/
def canonAll (canon : Canonicalizer) : List FsPath → Option (List FsPath)
  | [] => some []
  | f :: fs =>
    match canon f with
    | none => none
    | some cf => (canonAll canon fs).map (cf :: ·)

/-- Model of `BackupTarget::new` (src/lib.rs lines 240-253,
src/backup_target.rs lines 76-89): canonicalize every folder (panicking, i.e.
`none`, if any fails) and store the given globs and tags. -/
def BackupTarget.new (canon : Canonicalizer) (folders : List FsPath)
    (exclusions : List Glob) (tags : List (List Char)) : Option BackupTarget :=
  (canonAll canon folders).map fun cfs => ⟨cfs, exclusions, tags⟩

/-- Parse raw exclusion strings as `Glob::new(&format!("**/{}", c))`, stopping
at the first `globset` error, as the `collect::<Result<..>>()?` of
`new_from_string` does. -/
def parseGlobs : List (List Char) → Option (List Glob)
  | [] => some []
  | c :: cs =>
    match Glob.new (['*', '*', '/'] ++ c) with
    | none => none
    | some g => (parseGlobs cs).map (g :: ·)

/-- Model of `BackupTarget::new_from_string` (src/lib.rs lines 255-268,
src/backup_target.rs lines 91-104): `.error ()` is the `globset::Error` return
(patterns are parsed before `new` runs), and the inner `none` is the
canonicalization panic inside `new`. -/
def BackupTarget.new_from_string (canon : Canonicalizer) (folders : List FsPath)
    (exclusions : List (List Char)) (tags : List (List Char)) :
    Except Unit (Option BackupTarget) :=
  match parseGlobs exclusions with
  | none => .error ()
  | some gs => .ok (BackupTarget.new canon folders gs tags)

/-- Model of `BackupTarget::get_exclusions_as_globset` (src/lib.rs lines
270-276, src/backup_target.rs lines 106-112) up to the final `unwrap`: build
the matcher from the stored exclusions; `none` is the failure the source
`unwrap`s. -/
def BackupTarget.get_exclusions_as_globset (t : BackupTarget) : Option GlobSet :=
  globSetBuild t.exclusions

/-- The folder-membership scan of `check_path_is_in_backup`:
`self.folders.iter().any(|c| path.canonicalize().unwrap().starts_with(c))`.
The queried path is canonicalized inside the closure, so with no folders the
closure never runs; `none` is the `unwrap` panic. -/
def anyFolderContainsCanon (canon : Canonicalizer) (path : FsPath) :
    List FsPath → Option Bool
  | [] => some false
  | f :: fs =>
    match canon path with
    | none => none
    | some cp => if f <+: cp then some true else anyFolderContainsCanon canon path fs

/-- Model of `BackupTarget::check_path_is_in_backup`, four-state version of
src/backup_target.rs lines 123-155.  The exclusion scan runs over the
ancestors of the raw queried path; the `Contains` scan canonicalizes each
folder tolerantly (`unwrap_or(false)`) and compares against the raw queried
path, exactly as the source does. -/
def BackupTarget.check_path_is_in_backup (canon : Canonicalizer) (t : BackupTarget)
    (path : FsPath) : Option BackupFileSelectionType :=
  match anyFolderContainsCanon canon path t.folders with
  | none => none
  | some true =>
    match t.get_exclusions_as_globset with
    | none => none
    | some ex_set =>
      some (if (pathAncestors path).any (fun c => ex_set.is_match c) then
        BackupFileSelectionType.Excluded
      else BackupFileSelectionType.Included)
  | some false =>
    if t.folders.any (fun c =>
        match canon c with
        | none => false
        | some cc => decide (path <+: cc)) then
      some BackupFileSelectionType.Contains
    else some BackupFileSelectionType.Irreverent

/-- Model of `BackupTarget::check_path_is_in_backup`, three-state version of
src/lib.rs lines 287-309 (`find(..).is_some()` there is the same short-circuit
scan as `any`). -/
def BackupTarget.check_path_is_in_backupL (canon : Canonicalizer) (t : BackupTarget)
    (path : FsPath) : Option BackupFileSelectionTypeL :=
  match anyFolderContainsCanon canon path t.folders with
  | none => none
  | some true =>
    match t.get_exclusions_as_globset with
    | none => none
    | some ex_set =>
      some (if (pathAncestors path).any (fun c => ex_set.is_match c) then
        BackupFileSelectionTypeL.Excluded
      else BackupFileSelectionTypeL.Included)
  | some false => some BackupFileSelectionTypeL.NotATarget

/-- An in-memory filesystem node: a file or a directory with ordered
children (the deterministic stand-in for the on-disk tree `walkdir`
enumerates; symbolic links are outside the model since the walk does not
follow them). -/
inductive FNode where
  | file (name : Comp)
  | dir (name : Comp) (children : List FNode)

/-- The name of a node. -/
def FNode.name : FNode → Comp
  | .file nm => nm
  | .dir nm _ => nm

/-- First child with the given name. -/
def findChild (nm : Comp) : List FNode → Option FNode
  | [] => none
  | n :: ns => if n.name = nm then some n else findChild nm ns

/-- Look a path up below a node. -/
def lookupRel : FNode → FsPath → Option FNode
  | n, [] => some n
  | FNode.file _, _ :: _ => none
  | FNode.dir _ children, c :: cs =>
    match findChild c children with
    | none => none
    | some m => lookupRel m cs

/-- Look an absolute path up in a filesystem given as the root's children. -/
def lookupPath (fs : List FNode) (p : FsPath) : Option FNode :=
  lookupRel (FNode.dir [] fs) p

/-- The body of the `generate_files` walk loop (src/lib.rs lines 319-337,
src/backup_target.rs lines 165-182) over the children of a yielded directory.
Result: (paths tested against the matcher, paths inserted into the store), in
walk order.  A matching directory entry is pruned via `skip_current_dir`
(its contents are skipped, its later siblings continue); for a matching file
entry the source also calls `skip_current_dir`, which pops the parent
directory's remaining entries, so the file's unyielded siblings are skipped
and the walk resumes in the grandparent. -/
def walkChildren (ex : GlobSet) : FsPath → List FNode → List FsPath × List FsPath
  | _, [] => ([], [])
  | dirPath, FNode.file nm :: rest =>
    let p := dirPath ++ [nm]
    if ex.is_match p then ([p], [])
    else
      let r := walkChildren ex dirPath rest
      (p :: r.1, p :: r.2)
  | dirPath, FNode.dir nm cs :: rest =>
    let p := dirPath ++ [nm]
    if ex.is_match p then
      let r := walkChildren ex dirPath rest
      (p :: r.1, r.2)
    else
      let rc := walkChildren ex (dirPath ++ [nm]) cs
      let rr := walkChildren ex dirPath rest
      (p :: (rc.1 ++ rr.1), p :: (rc.2 ++ rr.2))

/-- Walk one target folder: `walkdir::WalkDir::new(folder)` yields the folder
itself first; a root that cannot be read is a per-entry error the source logs
and skips.  Result as in `walkChildren`. -/
def walkFolder (ex : GlobSet) (fs : List FNode) (f : FsPath) :
    List FsPath × List FsPath :=
  match lookupPath fs f with
  | none => ([], [])
  | some (FNode.file _) => if ex.is_match f then ([f], []) else ([f], [f])
  | some (FNode.dir _ cs) =>
    if ex.is_match f then ([f], [])
    else
      let r := walkChildren ex f cs
      (f :: r.1, f :: r.2)

/-- Walk every target folder in order, concatenating the logs (overlapping
folders are walked independently, no deduplication). -/
def walkFolders (ex : GlobSet) (fs : List FNode) : List FsPath → List FsPath × List FsPath
  | [] => ([], [])
  | f :: rest =>
    let r := walkFolder ex fs f
    let rr := walkFolders ex fs rest
    (r.1 ++ rr.1, r.2 ++ rr.2)

/-- Model of `BackupTarget::generate_files` (src/lib.rs lines 310-342,
src/backup_target.rs lines 156-186): build the matcher (`none` is its
`unwrap` panic), then walk each folder.  The second component of the result
is the content of the returned `PathStore` (every path passed to
`store.add_path`, in insertion order); the first component records every path
tested against the matcher. -/
def BackupTarget.generate_files (t : BackupTarget) (fs : List FNode) :
    Option (List FsPath × List FsPath) :=
  match t.get_exclusions_as_globset with
  | none => none
  | some ex => some (walkFolders ex fs t.folders)

/-- Model of `check_string_is_hex` (src/lib.rs lines 214-223): true iff every
character is a digit or a lowercase `a`-`f`; vacuously true on the empty
string. -/
def check_string_is_hex : List Char → Bool
  | [] => true
  | c :: cs =>
    if ('0' ≤ c ∧ c ≤ '9') ∨ ('a' ≤ c ∧ c ≤ 'f') then check_string_is_hex cs
    else false

/-- Whitespace predicate for Rust `str::trim`, modeled for the ASCII subset of
`char::is_whitespace`. -/
def isRustWhitespace (c : Char) : Bool :=
  c == ' ' || c == '\t' || c == '\n' || c == '\r'

/-- Model of Rust `str::trim`: strip leading and trailing whitespace. -/
def strTrim (s : List Char) : List Char :=
  ((s.dropWhile isRustWhitespace).reverse.dropWhile isRustWhitespace).reverse

/-- The error kinds of src/errors.rs, plus `msg` collapsing every
`error_chain` message/chained error (`Msg(..)`, `chain_err` wrappers); the
payload strings are irrelevant to the claims and are not modeled. -/
inductive ErrorKind where
  | resticRepoNotFound
  | resticRepoInvalidPassword
  | invalidId
  | noOutputFromRestic
  | msg
deriving DecidableEq

/-- Observable outcome of running the external `restic` process: exit status,
stdout split into lines, and whether stderr contains "wrong password". -/
structure ProcOutput where
  success : Bool
  stdoutLines : List (List Char)
  stderrWrongPassword : Bool

/-- Model of `ResticConfig::output_parsing` (src/lib.rs lines 193-211). -/
def output_parsing {T : Type} (output : ProcOutput)
    (handler : List (List Char) → Except ErrorKind T) : Except ErrorKind T :=
  if output.success then handler output.stdoutLines
  else if output.stderrWrongPassword then .error .resticRepoInvalidPassword
  else .error .msg

/-- The per-line JSON parsing loop of `restic_ls`'s success handler
(`lines.map(serde_json::from_str ..).collect()`): stop at the first parse
failure, which `chain_err` turns into a message error. -/
def parse_ls_lines {ListJ : Type} (parseListLine : List Char → Option ListJ) :
    List (List Char) → Except ErrorKind (List ListJ)
  | [] => .ok []
  | l :: ls =>
    match parseListLine l with
    | none => .error .msg
    | some v =>
      match parse_ls_lines parseListLine ls with
      | .error e => .error e
      | .ok vs => .ok (v :: vs)

/-- The part of `ResticConfig::restic_ls` that runs after the id validation
passed: spawn the process (`run = none` models a spawn failure, chained to a
message error) and parse its output. -/
def restic_ls_run {Snap ListJ : Type} (parseSnapshot : List Char → Option Snap)
    (parseListLine : List Char → Option ListJ)
    (run : Option ProcOutput) : Except ErrorKind (List ListJ) :=
  match run with
  | none => .error .msg
  | some out =>
    output_parsing out fun lines =>
      match lines with
      | [] => .error .noOutputFromRestic
      | descLine :: rest =>
        match parseSnapshot descLine with
        | none => .error .msg
        | some _ => parse_ls_lines parseListLine rest

/-- Model of `ResticConfig::restic_ls` (src/lib.rs lines 116-143).  The JSON
deserializers of the external `serde_json` crate are oracle parameters.  The
id validation runs before the process is spawned. -/
def restic_ls {Snap ListJ : Type} (parseSnapshot : List Char → Option Snap)
    (parseListLine : List Char → Option ListJ) (id : List Char)
    (run : Option ProcOutput) : Except ErrorKind (List ListJ) :=
  if check_string_is_hex (strTrim id) = false then .error .invalidId
  else restic_ls_run parseSnapshot parseListLine run

/-! ### Concrete instances used by witnesses and counterexamples -/

/-- The identity canonicalizer: every path exists and is already canonical. -/
def canonId : Canonicalizer := fun p => some p

/-- A canonicalizer on which every lookup fails (no path exists). -/
def canonFail : Canonicalizer := fun _ => none

/-- The compiled depth-free pattern `**/cache`. -/
def globStarCache : Glob := ⟨['*', '*', '/', 'c', 'a', 'c', 'h', 'e'], by decide⟩

/-- The compiled depth-free pattern `**/skipme`. -/
def globStarSkipme : Glob := ⟨['*', '*', '/', 's', 'k', 'i', 'p', 'm', 'e'], by decide⟩

/-- The compiled rooted pattern `/data/cache`. -/
def globRootedDataCache : Glob :=
  ⟨['/', 'd', 'a', 't', 'a', '/', 'c', 'a', 'c', 'h', 'e'], by decide⟩

/-- A target backing up `/data` with exclusion `**/cache`. -/
def targetData : BackupTarget := ⟨[[['d', 'a', 't', 'a']]], [globStarCache], []⟩

/-- A target with overlapping folders `/data` and `/data/cache/sub` and
exclusion `**/cache`. -/
def targetNested : BackupTarget :=
  ⟨[[['d', 'a', 't', 'a']], [['d', 'a', 't', 'a'], ['c', 'a', 'c', 'h', 'e'], ['s', 'u', 'b']]],
   [globStarCache], []⟩

/-- A filesystem holding `/data/cache/sub/x.bin` and `/data/a.txt`. -/
def fsNested : List FNode :=
  [.dir ['d', 'a', 't', 'a']
    [.dir ['c', 'a', 'c', 'h', 'e'] [.dir ['s', 'u', 'b'] [.file ['x', '.', 'b', 'i', 'n']]],
     .file ['a', '.', 't', 'x', 't']]]

/-- A target backing up `/data` with exclusion `**/skipme`. -/
def targetSkip : BackupTarget := ⟨[[['d', 'a', 't', 'a']]], [globStarSkipme], []⟩

/-- A filesystem where directory `/data` contains the file `skipme` followed
by the file `zz`. -/
def fsSkip : List FNode :=
  [.dir ['d', 'a', 't', 'a'] [.file ['s', 'k', 'i', 'p', 'm', 'e'], .file ['z', 'z']]]

/-! ### Helper lemmas -/

/-- Building the matcher from validated globs always succeeds: the validity
re-check of `globSetBuild` is satisfied by every member's invariant. -/
theorem globSetBuild_eq_some (gs : List Glob) : globSetBuild gs = some ⟨gs⟩ := by
  unfold globSetBuild
  rw [if_pos]
  rw [List.all_eq_true]
  intro g _
  exact g.property

/-- The matcher a target compiles is exactly its stored exclusion list. -/
theorem get_exclusions_eq_some (t : BackupTarget) :
    t.get_exclusions_as_globset = some ⟨t.exclusions⟩ :=
  globSetBuild_eq_some t.exclusions

/-- Membership in `pathAncestors` is exactly the ancestor relation: the
prefixes of the path, the path itself and the root included. -/
theorem mem_pathAncestors (a p : FsPath) : a ∈ pathAncestors p ↔ a <+: p := by
  unfold pathAncestors
  rw [List.mem_map]
  constructor
  · rintro ⟨t, ht, rfl⟩
    rw [List.mem_tails] at ht
    have h2 : t.reverse.reverse <:+ p.reverse := by simpa using ht
    exact List.reverse_suffix.mp h2
  · intro h
    refine ⟨a.reverse, ?_, by simp⟩
    rw [List.mem_tails]
    exact List.reverse_suffix.mpr h

/-- If the queried path canonicalizes and some folder is a prefix of the
canonical form, the folder-membership scan succeeds. -/
theorem anyFolderContainsCanon_true (canon : Canonicalizer) (path cp : FsPath)
    (folders : List FsPath) (hc : canon path = some cp)
    (hf : ∃ f ∈ folders, f <+: cp) :
    anyFolderContainsCanon canon path folders = some true := by
  induction folders with
  | nil => simp at hf
  | cons g gs ih =>
    obtain ⟨f, hmem, hpre⟩ := hf
    simp only [anyFolderContainsCanon, hc]
    rcases List.mem_cons.mp hmem with rfl | hmem'
    · rw [if_pos hpre]
    · by_cases hg : g <+: cp
      · rw [if_pos hg]
      · rw [if_neg hg]
        exact ih ⟨f, hmem', hpre⟩

/-- If the queried path canonicalizes and no folder is a prefix of the
canonical form, the folder-membership scan returns false. -/
theorem anyFolderContainsCanon_false (canon : Canonicalizer) (path cp : FsPath)
    (folders : List FsPath) (hc : canon path = some cp)
    (hf : ∀ f ∈ folders, ¬ f <+: cp) :
    anyFolderContainsCanon canon path folders = some false := by
  induction folders with
  | nil => rfl
  | cons g gs ih =>
    simp only [anyFolderContainsCanon, hc]
    rw [if_neg (hf g (List.mem_cons_self g gs))]
    exact ih fun f hm => hf f (List.mem_cons_of_mem g hm)

/-- If any folder fails to canonicalize, the collecting canonicalization of
`BackupTarget::new` fails (models the `expect` panic). -/
theorem canonAll_eq_none (canon : Canonicalizer) (folders : List FsPath)
    (h : ∃ f ∈ folders, canon f = none) : canonAll canon folders = none := by
  induction folders with
  | nil => simp at h
  | cons g gs ih =>
    obtain ⟨f, hmem, hnone⟩ := h
    unfold canonAll
    rcases List.mem_cons.mp hmem with rfl | hmem'
    · rw [hnone]
    · cases hg : canon g with
      | none => rfl
      | some cg => rw [ih ⟨f, hmem', hnone⟩]; rfl

/-- `check_string_is_hex` fails exactly when some character is outside
digits and lowercase `a`-`f`. -/
theorem check_string_is_hex_eq_false_iff (s : List Char) :
    check_string_is_hex s = false ↔
      ∃ c ∈ s, ¬ (('0' ≤ c ∧ c ≤ '9') ∨ ('a' ≤ c ∧ c ≤ 'f')) := by
  induction s with
  | nil => simp [check_string_is_hex]
  | cons c cs ih =>
    unfold check_string_is_hex
    by_cases hc : ('0' ≤ c ∧ c ≤ '9') ∨ ('a' ≤ c ∧ c ≤ 'f')
    · rw [if_pos hc, ih]
      constructor
      · rintro ⟨d, hd, hbad⟩
        exact ⟨d, List.mem_cons_of_mem c hd, hbad⟩
      · rintro ⟨d, hd, hbad⟩
        rcases List.mem_cons.mp hd with rfl | hd'
        · exact absurd hc hbad
        · exact ⟨d, hd', hbad⟩
    · rw [if_neg hc]
      constructor
      · intro _
        exact ⟨c, List.mem_cons_self c cs, hc⟩
      · intro _
        rfl

/-- The per-line parsing loop of `restic_ls` never produces `InvalidId`. -/
theorem parse_ls_lines_ne_invalidId {ListJ : Type}
    (parseListLine : List Char → Option ListJ) (ls : List (List Char)) :
    parse_ls_lines parseListLine ls ≠ .error .invalidId := by
  induction ls with
  | nil => simp [parse_ls_lines]
  | cons l ls ih =>
    unfold parse_ls_lines
    cases parseListLine l with
    | none => simp
    | some v =>
      cases hrec : parse_ls_lines parseListLine ls with
      | error e =>
        simp only []
        intro hcontra
        rw [hrec] at ih
        exact ih (by simpa using hcontra)
      | ok vs => simp

/-! ### Claim C7 -/

/-- C7: for every folder list containing at least one path that cannot be
canonicalized, `BackupTarget::new` fails (the `expect` on the failing
canonicalization aborts construction, modeled as `none`) and no partially
constructed target is produced. -/
theorem C7_new_fails_on_unresolvable_folder (canon : Canonicalizer)
    (folders : List FsPath) (exclusions : List Glob) (tags : List (List Char))
    (h : ∃ f ∈ folders, canon f = none) :
    BackupTarget.new canon folders exclusions tags = none := by
  unfold BackupTarget.new
  rw [canonAll_eq_none canon folders h]
  rfl

/-- C7 witness: `new(["/nonexistent"], [], [])` fails when `/nonexistent`
does not resolve. -/
theorem C7_witness :
    BackupTarget.new canonFail
      [[['n', 'o', 'n', 'e', 'x', 'i', 's', 't', 'e', 'n', 't']]] [] [] = none :=
  C7_new_fails_on_unresolvable_folder canonFail _ [] []
    ⟨[['n', 'o', 'n', 'e', 'x', 'i', 's', 't', 'e', 'n', 't']], by simp, rfl⟩

/-! ### Claim C8 -/

/-- C8: compiling the exclusions of any constructed `BackupTarget` into the
matcher never reaches the failure branch of the build (`unwrap` cannot
panic): every stored member pattern is already valid, so the build returns
exactly the matcher over the stored exclusions. -/
theorem C8_get_exclusions_never_fails (t : BackupTarget) :
    t.get_exclusions_as_globset = some ⟨t.exclusions⟩ :=
  get_exclusions_eq_some t

/-! ### Claim C9 -/

/-- C9: with an empty folder list, `check_path_is_in_backup` returns the
not-in-target outcome (`Irreverent` in the four-state version, `NotATarget`
in the three-state version) for every queried path and every canonicalizer,
in particular also when the queried path cannot be canonicalized: the
per-folder closure never runs, so the `unwrap` panic branch is unreachable. -/
theorem C9_empty_folders_never_canonicalizes (canon : Canonicalizer)
    (exclusions : List MyGlob) (tags : List (List Char)) (path : FsPath) :
    BackupTarget.check_path_is_in_backup canon ⟨[], exclusions, tags⟩ path =
        some BackupFileSelectionType.Irreverent ∧
    BackupTarget.check_path_is_in_backupL canon ⟨[], exclusions, tags⟩ path =
        some BackupFileSelectionTypeL.NotATarget :=
  ⟨rfl, rfl⟩

/-! ### Claim C10 -/

/-- C10: `restic_ls` returns `InvalidId` exactly when the whitespace-trimmed
id contains a character outside `0`-`9` and lowercase `a`-`f`; the hex check
accepts the empty string (so a whitespace-only id passes validation), and any
uppercase hex digit in the trimmed id causes rejection. -/
theorem C10_restic_ls_invalidId_iff {Snap ListJ : Type}
    (parseSnapshot : List Char → Option Snap) (parseListLine : List Char → Option ListJ)
    (id : List Char) (run : Option ProcOutput) :
    (restic_ls parseSnapshot parseListLine id run = .error .invalidId ↔
      ∃ c ∈ strTrim id, ¬ (('0' ≤ c ∧ c ≤ '9') ∨ ('a' ≤ c ∧ c ≤ 'f'))) ∧
    check_string_is_hex [] = true ∧
    (∀ c : Char, 'A' ≤ c → c ≤ 'F' → c ∈ strTrim id →
      restic_ls parseSnapshot parseListLine id run = .error .invalidId) := by
  have hrun : restic_ls_run parseSnapshot parseListLine run ≠ .error .invalidId := by
    cases run with
    | none => simp [restic_ls_run]
    | some out =>
      simp only [restic_ls_run, output_parsing]
      by_cases hs : out.success = true
      · rw [if_pos hs]
        cases out.stdoutLines with
        | nil => simp
        | cons d rest =>
          cases hP : parseSnapshot d with
          | none => simp [hP]
          | some v => simp [hP, parse_ls_lines_ne_invalidId parseListLine rest]
      · rw [if_neg hs]
        by_cases hw : out.stderrWrongPassword = true
        · rw [if_pos hw]; simp
        · rw [if_neg hw]; simp
  have hmain : restic_ls parseSnapshot parseListLine id run = .error .invalidId ↔
      ∃ c ∈ strTrim id, ¬ (('0' ≤ c ∧ c ≤ '9') ∨ ('a' ≤ c ∧ c ≤ 'f')) := by
    rw [← check_string_is_hex_eq_false_iff]
    unfold restic_ls
    by_cases hhex : check_string_is_hex (strTrim id) = false
    · rw [if_pos hhex]
      simp [hhex]
    · rw [if_neg hhex]
      constructor
      · intro hcontra
        exact absurd hcontra hrun
      · intro hbad
        exact absurd hbad hhex
  refine ⟨hmain, rfl, ?_⟩
  intro c h1 h2 hmem
  have hbad : ¬ (('0' ≤ c ∧ c ≤ '9') ∨ ('a' ≤ c ∧ c ≤ 'f')) := by
    rintro (⟨_, h4⟩ | ⟨h3, _⟩)
    · exact absurd (le_trans h1 h4) (by decide)
    · exact absurd (le_trans h3 h2) (by decide)
  exact hmain.mpr ⟨c, hmem, hbad⟩

/-- C10 witness: the id `"A"` (an uppercase hex digit) is rejected with
`InvalidId` before the process would even run. -/
theorem C10_witness :
    restic_ls (fun _ => (none : Option Unit)) (fun _ => (none : Option Unit)) ['A'] none =
      .error .invalidId :=
  (C10_restic_ls_invalidId_iff (fun _ => (none : Option Unit))
    (fun _ => (none : Option Unit)) ['A'] none).2.2 'A' (by decide) (by decide) (by decide)

/-! ### Claim C1 -/

/-- C1: for a queried path that canonicalizes successfully and whose canonical
form is equal to or a descendant of some target folder, the classifier returns
`Excluded` exactly when some ancestor of the queried path (the path itself
included, up to and including the filesystem root) matches the compiled
exclusion matcher, and `Included` otherwise; the three-state version of the
classifier agrees.  The first conjunct identifies the scanned ancestor list
with the ancestor (prefix) relation, root included. -/
theorem C1_classifier_ancestor_scan (canon : Canonicalizer) (t : BackupTarget)
    (path cp : FsPath) (hc : canon path = some cp)
    (hf : ∃ f ∈ t.folders, f <+: cp) :
    (∀ a : FsPath, a ∈ pathAncestors path ↔ a <+: path) ∧
    (t.check_path_is_in_backup canon path = some BackupFileSelectionType.Excluded ↔
      ∃ a, a <+: path ∧ (GlobSet.mk t.exclusions).is_match a = true) ∧
    (t.check_path_is_in_backup canon path = some BackupFileSelectionType.Included ↔
      ∀ a, a <+: path → (GlobSet.mk t.exclusions).is_match a = false) ∧
    (t.check_path_is_in_backupL canon path = some BackupFileSelectionTypeL.Excluded ↔
      t.check_path_is_in_backup canon path = some BackupFileSelectionType.Excluded) ∧
    (t.check_path_is_in_backupL canon path = some BackupFileSelectionTypeL.Included ↔
      t.check_path_is_in_backup canon path = some BackupFileSelectionType.Included) := by
  have hany : anyFolderContainsCanon canon path t.folders = some true :=
    anyFolderContainsCanon_true canon path cp t.folders hc hf
  have hex := get_exclusions_eq_some t
  have hcheck : t.check_path_is_in_backup canon path =
      some (if (pathAncestors path).any (fun c => (GlobSet.mk t.exclusions).is_match c) then
        BackupFileSelectionType.Excluded
      else BackupFileSelectionType.Included) := by
    simp only [BackupTarget.check_path_is_in_backup, hany, hex]
  have hcheckL : t.check_path_is_in_backupL canon path =
      some (if (pathAncestors path).any (fun c => (GlobSet.mk t.exclusions).is_match c) then
        BackupFileSelectionTypeL.Excluded
      else BackupFileSelectionTypeL.Included) := by
    simp only [BackupTarget.check_path_is_in_backupL, hany, hex]
  have hiff : ((pathAncestors path).any (fun c => (GlobSet.mk t.exclusions).is_match c) = true)
      ↔ ∃ a, a <+: path ∧ (GlobSet.mk t.exclusions).is_match a = true := by
    rw [List.any_eq_true]
    constructor
    · rintro ⟨a, ha, hm⟩
      exact ⟨a, (mem_pathAncestors a path).mp ha, hm⟩
    · rintro ⟨a, ha, hm⟩
      exact ⟨a, (mem_pathAncestors a path).mpr ha, hm⟩
  refine ⟨fun a => mem_pathAncestors a path, ?_, ?_, ?_, ?_⟩
  · rw [hcheck]
    by_cases hb : (pathAncestors path).any (fun c => (GlobSet.mk t.exclusions).is_match c) = true
    · rw [if_pos hb]
      exact iff_of_true rfl (hiff.mp hb)
    · rw [if_neg hb]
      exact iff_of_false (by simp) fun hx => hb (hiff.mpr hx)
  · rw [hcheck]
    by_cases hb : (pathAncestors path).any (fun c => (GlobSet.mk t.exclusions).is_match c) = true
    · rw [if_pos hb]
      refine iff_of_false (by simp) fun hall => ?_
      obtain ⟨a, ha, hm⟩ := hiff.mp hb
      rw [hall a ha] at hm
      simp at hm
    · rw [if_neg hb]
      refine iff_of_true rfl fun a ha => ?_
      cases hma : (GlobSet.mk t.exclusions).is_match a with
      | false => rfl
      | true => exact absurd (hiff.mpr ⟨a, ha, hma⟩) hb
  · rw [hcheck, hcheckL]
    by_cases hb : (pathAncestors path).any (fun c => (GlobSet.mk t.exclusions).is_match c) = true
    · rw [if_pos hb, if_pos hb]
      exact iff_of_true rfl rfl
    · rw [if_neg hb, if_neg hb]
      exact iff_of_false (by simp) (by simp)
  · rw [hcheck, hcheckL]
    by_cases hb : (pathAncestors path).any (fun c => (GlobSet.mk t.exclusions).is_match c) = true
    · rw [if_pos hb, if_pos hb]
      exact iff_of_false (by simp) (by simp)
    · rw [if_neg hb, if_neg hb]
      exact iff_of_true rfl rfl

/-- C1 witness: with target folder `/data` and exclusion `**/cache`, the query
`/data/cache/x` is `Excluded` (its ancestor `/data/cache` matches). -/
theorem C1_witness :
    targetData.check_path_is_in_backup canonId
      [['d', 'a', 't', 'a'], ['c', 'a', 'c', 'h', 'e'], ['x']] =
      some BackupFileSelectionType.Excluded :=
  ((C1_classifier_ancestor_scan canonId targetData
      [['d', 'a', 't', 'a'], ['c', 'a', 'c', 'h', 'e'], ['x']]
      [['d', 'a', 't', 'a'], ['c', 'a', 'c', 'h', 'e'], ['x']] rfl
      ⟨[['d', 'a', 't', 'a']], by decide, by decide⟩).2.1).mpr
    ⟨[['d', 'a', 't', 'a'], ['c', 'a', 'c', 'h', 'e']], by decide, by decide⟩

/-! ### Claim C6 -/

/-- C6: the outcome enum has exactly the four states (the source spells the
irrelevant state `Irreverent`); for every queried path that canonicalizes and
is neither equal to nor under any target folder, the result is `Contains`
when some target folder is a descendant of or equal to the queried path, and
`Irreverent` when the path has no ancestor/descendant relation to any
folder. -/
theorem C6_four_states_contains_irrelevant :
    (∀ x : BackupFileSelectionType,
      x = BackupFileSelectionType.Irreverent ∨ x = BackupFileSelectionType.Contains ∨
      x = BackupFileSelectionType.Included ∨ x = BackupFileSelectionType.Excluded) ∧
    (∀ (canon : Canonicalizer) (t : BackupTarget) (path cp : FsPath),
      canon path = some cp →
      (∀ f ∈ t.folders, ¬ f <+: cp) →
      (∃ f ∈ t.folders, ∃ cf, canon f = some cf ∧ path <+: cf) →
      t.check_path_is_in_backup canon path = some BackupFileSelectionType.Contains) ∧
    (∀ (canon : Canonicalizer) (t : BackupTarget) (path cp : FsPath),
      canon path = some cp →
      (∀ f ∈ t.folders, ¬ f <+: cp) →
      (∀ f ∈ t.folders, ∀ cf, canon f = some cf → ¬ path <+: cf) →
      t.check_path_is_in_backup canon path = some BackupFileSelectionType.Irreverent) := by
  refine ⟨?_, ?_, ?_⟩
  · intro x
    cases x
    · exact Or.inl rfl
    · exact Or.inr (Or.inl rfl)
    · exact Or.inr (Or.inr (Or.inl rfl))
    · exact Or.inr (Or.inr (Or.inr rfl))
  · intro canon t path cp hc hnotin hcont
    have hfalse := anyFolderContainsCanon_false canon path cp t.folders hc hnotin
    simp only [BackupTarget.check_path_is_in_backup, hfalse]
    rw [if_pos]
    rw [List.any_eq_true]
    obtain ⟨f, hfmem, cf, hcf, hpre⟩ := hcont
    refine ⟨f, hfmem, ?_⟩
    simp only [hcf]
    exact decide_eq_true hpre
  · intro canon t path cp hc hnotin hnone
    have hfalse := anyFolderContainsCanon_false canon path cp t.folders hc hnotin
    simp only [BackupTarget.check_path_is_in_backup, hfalse]
    rw [if_neg]
    intro hany
    obtain ⟨f, hfmem, hpred⟩ := List.any_eq_true.mp hany
    cases hcf : canon f with
    | none => rw [hcf] at hpred; simp at hpred
    | some cf =>
      rw [hcf] at hpred
      exact hnone f hfmem cf hcf (of_decide_eq_true hpred)

/-- C6 witness: with target folder `/data`, querying the root `/` yields
`Contains` and querying `/other` yields `Irreverent`. -/
theorem C6_witness :
    targetData.check_path_is_in_backup canonId [] = some BackupFileSelectionType.Contains ∧
    targetData.check_path_is_in_backup canonId [['o', 't', 'h', 'e', 'r']] =
      some BackupFileSelectionType.Irreverent := by
  constructor
  · exact C6_four_states_contains_irrelevant.2.1 canonId targetData [] [] rfl (by decide)
      ⟨[['d', 'a', 't', 'a']], by decide, [['d', 'a', 't', 'a']], rfl, by decide⟩
  · refine C6_four_states_contains_irrelevant.2.2 canonId targetData
      [['o', 't', 'h', 'e', 'r']] [['o', 't', 'h', 'e', 'r']] rfl (by decide) ?_
    intro f hf cf hcf
    have hfe : f = [['d', 'a', 't', 'a']] := by
      simpa [targetData] using hf
    subst hfe
    cases hcf
    decide

/-! ### String and pattern lemmas for the serde claims -/

/-- Stripping trailing slashes yields an initial segment of the string. -/
theorem trimEndSlashes_isPre (s : List Char) : trimEndSlashes s <+: s := by
  rw [← List.reverse_suffix]
  simpa [trimEndSlashes] using List.dropWhile_suffix (fun c => decide (c = '/'))

/-- Stripping trailing slashes cannot create a leading slash. -/
theorem trimEndSlashes_head (s : List Char) (h : ¬ s.head? = some '/') :
    ¬ (trimEndSlashes s).head? = some '/' := by
  have hpre := trimEndSlashes_isPre s
  cases he : trimEndSlashes s with
  | nil => simp
  | cons a t =>
    rw [he] at hpre
    obtain ⟨u, hu⟩ := hpre
    intro hc
    simp only [List.head?_cons, Option.some.injEq] at hc
    subst hc
    apply h
    rw [← hu]
    rfl

/-- Dropping a prefix of elements satisfying a predicate is idempotent. -/
theorem dropWhile_idem {α : Type} (p : α → Bool) (l : List α) :
    (l.dropWhile p).dropWhile p = l.dropWhile p := by
  induction l with
  | nil => rfl
  | cons a t ih =>
    by_cases h : p a = true
    · simp [List.dropWhile_cons, h, ih]
    · simp [List.dropWhile_cons, h]

/-- Stripping trailing slashes is idempotent. -/
theorem trimEndSlashes_idem (s : List Char) :
    trimEndSlashes (trimEndSlashes s) = trimEndSlashes s := by
  unfold trimEndSlashes
  rw [List.reverse_reverse, dropWhile_idem]

/-- The stored text of a depth-free parsed pattern is the `**/`-prefixed
trimmed raw text. -/
theorem visit_str_val_of_head_ne (value : List Char) (g : MyGlob)
    (h : ¬ value.head? = some '/') (hv : visit_str value = some g) :
    g.val = ['*', '*', '/'] ++ trimEndSlashes value := by
  unfold visit_str at hv
  rw [if_neg h] at hv
  unfold Glob.new at hv
  split at hv
  · rw [← Option.some.inj hv]
  · cases hv

/-- The stored text of a rooted parsed pattern is the trimmed raw text. -/
theorem visit_str_val_of_head_eq (value : List Char) (g : MyGlob)
    (h : value.head? = some '/') (hv : visit_str value = some g) :
    g.val = trimEndSlashes value := by
  unfold visit_str at hv
  rw [if_pos h] at hv
  unfold Glob.new at hv
  split at hv
  · rw [← Option.some.inj hv]
  · cases hv

/-! ### Claim C4 -/

/-- C4 counterexample: the rooted pattern `/data/cache` (as produced by the
§4.1 parse) serializes to `ta/cache` (the serializer drops three characters
unconditionally) and re-parses to `**/ta/cache`, which matches a different
path set: the original pattern matches `/data/cache` and the round-tripped
pattern does not. -/
theorem C4_counterexample :
    visit_str ['/', 'd', 'a', 't', 'a', '/', 'c', 'a', 'c', 'h', 'e'] =
      some globRootedDataCache ∧
    myGlobRoundtrip globRootedDataCache =
      some ⟨['*', '*', '/', 't', 'a', '/', 'c', 'a', 'c', 'h', 'e'], by decide⟩ ∧
    globRootedDataCache.matches [['d', 'a', 't', 'a'], ['c', 'a', 'c', 'h', 'e']] = true ∧
    Glob.matches ⟨['*', '*', '/', 't', 'a', '/', 'c', 'a', 'c', 'h', 'e'], by decide⟩
      [['d', 'a', 't', 'a'], ['c', 'a', 'c', 'h', 'e']] = false :=
  ⟨by decide, by decide, by decide, by decide⟩

/-- C4 (amended): for every depth-free pattern, i.e. one parsed from a raw
text not beginning with the path-root marker, serializing and re-parsing
reproduces the pattern itself (hence the same match set).  Rooted patterns do
not round-trip (see the counterexample). -/
theorem C4_amended_depth_free_roundtrip (value : List Char) (g : MyGlob)
    (h : ¬ value.head? = some '/') (hv : visit_str value = some g) :
    myGlobRoundtrip g = some g ∧
    ∀ g' : MyGlob, myGlobRoundtrip g = some g' →
      ∀ p : FsPath, g'.matches p = g.matches p := by
  have hval := visit_str_val_of_head_ne value g h hv
  have hser : MyGlob.serializeText g = some (trimEndSlashes value) := by
    unfold MyGlob.serializeText
    rw [hval]
    rw [if_neg (by simp)]
    simp
  have hhead2 : ¬ (trimEndSlashes value).head? = some '/' := trimEndSlashes_head value h
  have hround : visit_str (trimEndSlashes value) = some g := by
    unfold visit_str
    rw [if_neg hhead2, trimEndSlashes_idem]
    unfold Glob.new
    split
    · congr 1
      exact Subtype.ext hval.symm
    · rename_i hbad
      rw [← hval] at hbad
      exact absurd g.property hbad
  have hrt : myGlobRoundtrip g = some g := by
    unfold myGlobRoundtrip
    rw [hser]
    simpa using hround
  refine ⟨hrt, ?_⟩
  intro g' hg' p
  rw [hrt] at hg'
  rw [← Option.some.inj hg']

/-- C4 witness: the depth-free pattern `**/cache` round-trips to itself. -/
theorem C4_witness : myGlobRoundtrip globStarCache = some globStarCache :=
  (C4_amended_depth_free_roundtrip ['c', 'a', 'c', 'h', 'e'] globStarCache
    (by decide) (by decide)).1

/-- A wildcard-free glob component matches exactly itself. -/
theorem segMatch_literal (pat : List Char)
    (h : ∀ c ∈ pat, ¬ c = '*' ∧ ¬ c = '?') :
    ∀ s : List Char, (segMatch pat s = true ↔ pat = s) := by
  induction pat with
  | nil =>
    intro s
    rw [show segMatch [] s = s.isEmpty from rfl, List.isEmpty_iff]
    exact eq_comm
  | cons p ps ih =>
    intro s
    have hp := h p (List.mem_cons_self p ps)
    have ih2 := ih fun c hc => h c (List.mem_cons_of_mem p hc)
    simp only [segMatch, if_neg hp.1, if_neg hp.2]
    cases s with
    | nil => simp
    | cons c cs =>
      rw [Bool.and_eq_true, beq_iff_eq, ih2 cs]
      simp

/-- A glob whose components are all wildcard-free matches exactly its own
component list. -/
theorem compsMatch_literal (pats : List Comp)
    (h : ∀ comp ∈ pats, ∀ c ∈ comp, ¬ c = '*' ∧ ¬ c = '?') :
    ∀ ss : List Comp, (compsMatch pats ss = true ↔ pats = ss) := by
  induction pats with
  | nil =>
    intro ss
    rw [show compsMatch [] ss = ss.isEmpty from rfl, List.isEmpty_iff]
    exact eq_comm
  | cons p ps ih =>
    intro ss
    have hp := h p (List.mem_cons_self p ps)
    have hpne : ¬ p = ['*', '*'] := by
      intro he
      subst he
      exact (hp '*' (by simp)).1 rfl
    have ih2 := ih fun comp hc => h comp (List.mem_cons_of_mem p hc)
    simp only [compsMatch, if_neg hpne]
    cases ss with
    | nil => simp
    | cons s ss' =>
      rw [Bool.and_eq_true, segMatch_literal p hp s, ih2 ss']
      simp

/-- Splitting never yields an empty component list. -/
theorem splitOnSlash_ne_nil (s : List Char) : splitOnSlash s ≠ [] := by
  cases s with
  | nil => simp [splitOnSlash]
  | cons c rest =>
    unfold splitOnSlash
    by_cases h : c = '/'
    · rw [if_pos h]
      simp
    · rw [if_neg h]
      cases h2 : splitOnSlash rest <;> simp

/-- Joining undoes splitting. -/
theorem joinSlash_splitOnSlash (s : List Char) : joinSlash (splitOnSlash s) = s := by
  induction s with
  | nil => rfl
  | cons c rest ih =>
    unfold splitOnSlash
    by_cases h : c = '/'
    · rw [if_pos h]
      subst h
      cases h2 : splitOnSlash rest with
      | nil => exact absurd h2 (splitOnSlash_ne_nil rest)
      | cons a as =>
        rw [h2] at ih
        show joinSlash ([] :: a :: as) = '/' :: rest
        show [] ++ '/' :: joinSlash (a :: as) = '/' :: rest
        rw [ih]
        rfl
    · rw [if_neg h]
      cases h2 : splitOnSlash rest with
      | nil => exact absurd h2 (splitOnSlash_ne_nil rest)
      | cons a as =>
        rw [h2] at ih
        cases as with
        | nil =>
          show joinSlash [c :: a] = c :: rest
          have ha : a = rest := ih
          show c :: a = c :: rest
          rw [ha]
        | cons b bs =>
          show joinSlash ((c :: a) :: b :: bs) = c :: rest
          show (c :: a) ++ '/' :: joinSlash (b :: bs) = c :: rest
          rw [List.cons_append]
          have ha : a ++ '/' :: joinSlash (b :: bs) = rest := ih
          rw [ha]

/-- A slash-free string splits into the single component it is. -/
theorem splitOnSlash_no_slash (s : List Char) (h : ∀ c ∈ s, ¬ c = '/') :
    splitOnSlash s = [s] := by
  induction s with
  | nil => rfl
  | cons c rest ih =>
    have := ih fun d hd => h d (List.mem_cons_of_mem c hd)
    simp only [splitOnSlash, if_neg (h c (List.mem_cons_self c rest)), this]

/-- Splitting after a slash-free head component. -/
theorem splitOnSlash_append (s t : List Char) (h : ∀ c ∈ s, ¬ c = '/') :
    splitOnSlash (s ++ '/' :: t) = s :: splitOnSlash t := by
  induction s with
  | nil => simp [splitOnSlash]
  | cons c s' ih =>
    have hc := h c (List.mem_cons_self c s')
    have h2 := ih fun d hd => h d (List.mem_cons_of_mem c hd)
    show splitOnSlash (c :: (s' ++ '/' :: t)) = (c :: s') :: splitOnSlash t
    conv_lhs => unfold splitOnSlash
    rw [if_neg hc, h2]

/-- Splitting undoes joining of nonempty slash-free component lists. -/
theorem splitOnSlash_joinSlash (ps : List Comp) (hne : ps ≠ [])
    (h : ∀ comp ∈ ps, ∀ c ∈ comp, ¬ c = '/') :
    splitOnSlash (joinSlash ps) = ps := by
  induction ps with
  | nil => exact absurd rfl hne
  | cons p ps' ih =>
    cases ps' with
    | nil =>
      show splitOnSlash (joinSlash [p]) = [p]
      show splitOnSlash p = [p]
      exact splitOnSlash_no_slash p (h p (List.mem_cons_self p []))
    | cons q qs =>
      show splitOnSlash (joinSlash (p :: q :: qs)) = p :: q :: qs
      show splitOnSlash (p ++ '/' :: joinSlash (q :: qs)) = p :: q :: qs
      rw [splitOnSlash_append p _ (h p (List.mem_cons_self p (q :: qs)))]
      rw [ih (by simp) fun comp hc => h comp (List.mem_cons_of_mem p hc)]

/-- The textual rendering of a nonempty well-formed absolute path splits into
the empty root component followed by the path's components. -/
theorem splitOnSlash_renderAbs (p : FsPath) (hne : p ≠ [])
    (h : ∀ comp ∈ p, ∀ c ∈ comp, ¬ c = '/') :
    splitOnSlash (renderAbs p) = [] :: p := by
  show splitOnSlash ('/' :: joinSlash p) = [] :: p
  have hstep : splitOnSlash ('/' :: joinSlash p) = [] :: splitOnSlash (joinSlash p) := by
    simp [splitOnSlash]
  rw [hstep, splitOnSlash_joinSlash p hne h]

/-- Every character of a component produced by splitting occurs in the
original string. -/
theorem mem_splitOnSlash_chars (c : Char) :
    ∀ (s : List Char), ∀ comp ∈ splitOnSlash s, c ∈ comp → c ∈ s := by
  intro s
  induction s with
  | nil =>
    intro comp hcomp hc
    simp [splitOnSlash] at hcomp
    subst hcomp
    simp at hc
  | cons d rest ih =>
    intro comp hcomp hc
    unfold splitOnSlash at hcomp
    by_cases hd : d = '/'
    · rw [if_pos hd] at hcomp
      rcases List.mem_cons.mp hcomp with rfl | h2
      · simp at hc
      · exact List.mem_cons_of_mem d (ih comp h2 hc)
    · rw [if_neg hd] at hcomp
      cases h2 : splitOnSlash rest with
      | nil => exact absurd h2 (splitOnSlash_ne_nil rest)
      | cons a as =>
        rw [h2] at hcomp
        rcases List.mem_cons.mp hcomp with rfl | h3
        · rcases List.mem_cons.mp hc with rfl | h4
          · exact List.mem_cons_self c rest
          · have ha : a ∈ splitOnSlash rest := by
              rw [h2]
              exact List.mem_cons_self a as
            exact List.mem_cons_of_mem d (ih a ha h4)
        · have hmem : comp ∈ splitOnSlash rest := by
            rw [h2]
            exact List.mem_cons_of_mem a h3
          exact List.mem_cons_of_mem d (ih comp hmem hc)

/-! ### Claim C5 -/

/-- C5: a raw exclusion string that begins with the path-root marker (and is a
literal path, without wildcard characters) produces, through the §4.1
normalization `visit_str`, a pattern matching exactly one location: a
well-formed absolute path matches iff its rendering equals the raw string
with trailing separators stripped. -/
theorem C5_rooted_pattern_matches_exactly (raw : List Char) (g : MyGlob)
    (habs : raw.head? = some '/')
    (hlit : ∀ c ∈ raw, ¬ c = '*' ∧ ¬ c = '?')
    (hg : visit_str raw = some g) :
    ∀ p : FsPath, p ≠ [] → (∀ comp ∈ p, ∀ c ∈ comp, ¬ c = '/') →
      (g.matches p = true ↔ renderAbs p = trimEndSlashes raw) := by
  have hval : g.val = trimEndSlashes raw := visit_str_val_of_head_eq raw g habs hg
  intro p hne hwf
  unfold Glob.matches globMatchStr
  rw [hval, splitOnSlash_renderAbs p hne hwf]
  have hlit2 : ∀ comp ∈ splitOnSlash (trimEndSlashes raw), ∀ c ∈ comp,
      ¬ c = '*' ∧ ¬ c = '?' := by
    intro comp hcomp c hc
    have hcs : c ∈ trimEndSlashes raw := mem_splitOnSlash_chars c _ comp hcomp hc
    exact hlit c ((trimEndSlashes_isPre raw).subset hcs)
  rw [compsMatch_literal _ hlit2 ([] :: p)]
  constructor
  · intro h2
    have hj := congrArg joinSlash h2
    rw [joinSlash_splitOnSlash] at hj
    rw [hj]
    cases p with
    | nil => exact absurd rfl hne
    | cons a as => rfl
  · intro h2
    rw [← h2]
    exact splitOnSlash_renderAbs p hne hwf

/-- C5 witness: the rooted pattern `/data/cache` matches `/data/cache` and
does not match `/data/sub/cache`. -/
theorem C5_witness :
    globRootedDataCache.matches [['d', 'a', 't', 'a'], ['c', 'a', 'c', 'h', 'e']] = true ∧
    globRootedDataCache.matches
      [['d', 'a', 't', 'a'], ['s', 'u', 'b'], ['c', 'a', 'c', 'h', 'e']] = false := by
  have h := C5_rooted_pattern_matches_exactly
    ['/', 'd', 'a', 't', 'a', '/', 'c', 'a', 'c', 'h', 'e'] globRootedDataCache
    (by decide) (by decide) (by decide)
  constructor
  · exact (h [['d', 'a', 't', 'a'], ['c', 'a', 'c', 'h', 'e']] (by decide) (by decide)).mpr
      (by decide)
  · cases hm : globRootedDataCache.matches
        [['d', 'a', 't', 'a'], ['s', 'u', 'b'], ['c', 'a', 'c', 'h', 'e']] with
    | false => rfl
    | true =>
      exact absurd ((h [['d', 'a', 't', 'a'], ['s', 'u', 'b'], ['c', 'a', 'c', 'h', 'e']]
        (by decide) (by decide)).mp hm) (by decide)

/-! ### Walk lemmas for the pruning claims -/

/-- Equation: an empty directory contributes nothing. -/
theorem walkChildren_nil (ex : GlobSet) (dirPath : FsPath) :
    walkChildren ex dirPath [] = ([], []) := by
  simp [walkChildren]

/-- Equation: a matching file entry is tested, not stored, and its unyielded
siblings are dropped (`skip_current_dir` pops the parent's remaining
entries). -/
theorem walkChildren_file_pos (ex : GlobSet) (dirPath : FsPath) (nm : Comp)
    (rest : List FNode) (hm : ex.is_match (dirPath ++ [nm]) = true) :
    walkChildren ex dirPath (FNode.file nm :: rest) = ([dirPath ++ [nm]], []) := by
  simp only [walkChildren]
  rw [if_pos hm]

/-- Equation: a non-matching file entry is tested and stored, and the walk
continues with its siblings. -/
theorem walkChildren_file_neg (ex : GlobSet) (dirPath : FsPath) (nm : Comp)
    (rest : List FNode) (hm : ¬ ex.is_match (dirPath ++ [nm]) = true) :
    walkChildren ex dirPath (FNode.file nm :: rest) =
      ((dirPath ++ [nm]) :: (walkChildren ex dirPath rest).1,
       (dirPath ++ [nm]) :: (walkChildren ex dirPath rest).2) := by
  simp only [walkChildren]
  rw [if_neg hm]

/-- Equation: a matching directory entry is tested, its subtree is pruned,
and the walk continues with its siblings. -/
theorem walkChildren_dir_pos (ex : GlobSet) (dirPath : FsPath) (nm : Comp)
    (cs rest : List FNode) (hm : ex.is_match (dirPath ++ [nm]) = true) :
    walkChildren ex dirPath (FNode.dir nm cs :: rest) =
      ((dirPath ++ [nm]) :: (walkChildren ex dirPath rest).1,
       (walkChildren ex dirPath rest).2) := by
  simp only [walkChildren]
  rw [if_pos hm]

/-- Equation: a non-matching directory entry is tested and stored, its
contents are walked, then its siblings. -/
theorem walkChildren_dir_neg (ex : GlobSet) (dirPath : FsPath) (nm : Comp)
    (cs rest : List FNode) (hm : ¬ ex.is_match (dirPath ++ [nm]) = true) :
    walkChildren ex dirPath (FNode.dir nm cs :: rest) =
      ((dirPath ++ [nm]) ::
         ((walkChildren ex (dirPath ++ [nm]) cs).1 ++ (walkChildren ex dirPath rest).1),
       (dirPath ++ [nm]) ::
         ((walkChildren ex (dirPath ++ [nm]) cs).2 ++ (walkChildren ex dirPath rest).2)) := by
  simp only [walkChildren]
  rw [if_neg hm]

/-- A list properly extended by one element differs from itself. -/
theorem snoc_ne_self {α : Type} (d : List α) (a : α) : ¬ d ++ [a] = d := by
  intro he
  have := congrArg List.length he
  simp at this

/-- A path between a path and its one-component extension is one of the two
ends. -/
theorem sandwichSnoc {α : Type} (d q : List α) (a : α)
    (h1 : d <+: q) (h2 : q <+: d ++ [a]) : q = d ∨ q = d ++ [a] := by
  obtain ⟨u, hu⟩ := h1
  obtain ⟨v, hv⟩ := h2
  cases u with
  | nil =>
    left
    rw [← hu]
    simp
  | cons b bs =>
    right
    have hlen : q.length + v.length = d.length + 1 := by
      have := congrArg List.length hv
      simpa using this
    have hlq : q.length = d.length + 1 + bs.length := by
      have := congrArg List.length hu
      simp at this
      omega
    have hv0 : v.length = 0 := by omega
    have hvnil : v = [] := List.length_eq_zero.mp hv0
    subst hvnil
    simpa using hv

/-- The walk invariant for the children of a yielded directory: every tested
path lies strictly below the directory, and for every tested path all the
intermediate entries between the directory (exclusive) and the path
(exclusive) did not match; every stored path was also tested and did not
match. -/
theorem walkChildren_spec (ex : GlobSet) (dirPath : FsPath) (cs : List FNode) :
    (∀ p ∈ (walkChildren ex dirPath cs).1,
      (dirPath <+: p ∧ ¬ p = dirPath) ∧
      (∀ q, dirPath <+: q → q <+: p → ¬ q = dirPath → ¬ q = p →
        ex.is_match q = false)) ∧
    (∀ p ∈ (walkChildren ex dirPath cs).2,
      p ∈ (walkChildren ex dirPath cs).1 ∧ ex.is_match p = false) := by
  induction dirPath, cs using walkChildren.induct ex with
  | case1 x => simp [walkChildren_nil]
  | case2 dirPath nm rest p hm =>
    rw [walkChildren_file_pos ex dirPath nm rest hm]
    constructor
    · intro p hp
      rw [List.mem_singleton] at hp
      subst hp
      refine ⟨⟨⟨[nm], rfl⟩, snoc_ne_self dirPath nm⟩, ?_⟩
      intro q hq1 hq2 hq3 hq4
      rcases sandwichSnoc dirPath q nm hq1 hq2 with h | h
      · exact absurd h hq3
      · exact absurd h hq4
    · intro p hp
      simp at hp
  | case3 dirPath nm rest p hm ih =>
    rw [walkChildren_file_neg ex dirPath nm rest hm]
    obtain ⟨ih1, ih2⟩ := ih
    have hmf : ex.is_match (dirPath ++ [nm]) = false := by
      cases hmm : ex.is_match (dirPath ++ [nm]) with
      | false => rfl
      | true => exact absurd hmm hm
    constructor
    · intro p hp
      rcases List.mem_cons.mp hp with rfl | hp'
      · refine ⟨⟨⟨[nm], rfl⟩, snoc_ne_self dirPath nm⟩, ?_⟩
        intro q hq1 hq2 hq3 hq4
        rcases sandwichSnoc dirPath q nm hq1 hq2 with h | h
        · exact absurd h hq3
        · exact absurd h hq4
      · exact ih1 p hp'
    · intro p hp
      rcases List.mem_cons.mp hp with rfl | hp'
      · exact ⟨List.mem_cons_self _ _, hmf⟩
      · obtain ⟨ht, hnm⟩ := ih2 p hp'
        exact ⟨List.mem_cons_of_mem _ ht, hnm⟩
  | case4 dirPath nm cs rest p hm ih =>
    rw [walkChildren_dir_pos ex dirPath nm cs rest hm]
    obtain ⟨ih1, ih2⟩ := ih
    constructor
    · intro p hp
      rcases List.mem_cons.mp hp with rfl | hp'
      · refine ⟨⟨⟨[nm], rfl⟩, snoc_ne_self dirPath nm⟩, ?_⟩
        intro q hq1 hq2 hq3 hq4
        rcases sandwichSnoc dirPath q nm hq1 hq2 with h | h
        · exact absurd h hq3
        · exact absurd h hq4
      · exact ih1 p hp'
    · intro p hp
      obtain ⟨ht, hnm⟩ := ih2 p hp
      exact ⟨List.mem_cons_of_mem _ ht, hnm⟩
  | case5 dirPath nm cs rest p hm ihc ihr =>
    rw [walkChildren_dir_neg ex dirPath nm cs rest hm]
    obtain ⟨ihc1, ihc2⟩ := ihc
    obtain ⟨ihr1, ihr2⟩ := ihr
    have hmf : ex.is_match (dirPath ++ [nm]) = false := by
      cases hmm : ex.is_match (dirPath ++ [nm]) with
      | false => rfl
      | true => exact absurd hmm hm
    constructor
    · intro p hp
      rcases List.mem_cons.mp hp with rfl | hp'
      · refine ⟨⟨⟨[nm], rfl⟩, snoc_ne_self dirPath nm⟩, ?_⟩
        intro q hq1 hq2 hq3 hq4
        rcases sandwichSnoc dirPath q nm hq1 hq2 with h | h
        · exact absurd h hq3
        · exact absurd h hq4
      · rcases List.mem_append.mp hp' with hpc | hpr
        · obtain ⟨⟨hpre, hne⟩, hmid⟩ := ihc1 p hpc
          refine ⟨⟨List.IsPrefix.trans ⟨[nm], rfl⟩ hpre, ?_⟩, ?_⟩
          · intro he
            rw [he] at hpre
            have := hpre.length_le
            simp at this
          · intro q hq1 hq2 hq3 hq4
            have hcomp := List.prefix_or_prefix_of_prefix hq2 hpre
            rcases hcomp with hqp | hpq
            · rcases sandwichSnoc dirPath q nm hq1 hqp with h | h
              · exact absurd h hq3
              · rw [h]
                exact hmf
            · by_cases hqe : q = dirPath ++ [nm]
              · rw [hqe]
                exact hmf
              · exact hmid q hpq hq2 hqe hq4
        · exact ihr1 p hpr
    · intro p hp
      rcases List.mem_cons.mp hp with rfl | hp'
      · exact ⟨List.mem_cons_self _ _, hmf⟩
      · rcases List.mem_append.mp hp' with hpc | hpr
        · obtain ⟨ht, hnm⟩ := ihc2 p hpc
          exact ⟨List.mem_cons_of_mem _ (List.mem_append_left _ ht), hnm⟩
        · obtain ⟨ht, hnm⟩ := ihr2 p hpr
          exact ⟨List.mem_cons_of_mem _ (List.mem_append_right _ ht), hnm⟩

/-- The walk invariant for one target folder: every tested path lies at or
below the folder, every entry strictly between the folder (inclusive) and a
tested path (exclusive) did not match, and every stored path was tested and
did not match. -/
theorem walkFolder_spec (ex : GlobSet) (fs : List FNode) (f : FsPath) :
    (∀ p ∈ (walkFolder ex fs f).1,
      f <+: p ∧ ∀ q, f <+: q → q <+: p → ¬ q = p → ex.is_match q = false) ∧
    (∀ p ∈ (walkFolder ex fs f).2,
      p ∈ (walkFolder ex fs f).1 ∧ ex.is_match p = false) := by
  have hroot : ∀ p ∈ ([f] : List FsPath),
      f <+: p ∧ ∀ q, f <+: q → q <+: p → ¬ q = p → ex.is_match q = false := by
    intro p hp
    rw [List.mem_singleton] at hp
    subst hp
    refine ⟨List.prefix_rfl, ?_⟩
    intro q hq1 hq2 hq4
    exact absurd (hq1.eq_of_length_le hq2.length_le).symm hq4
  cases hlook : lookupPath fs f with
  | none =>
    simp only [walkFolder, hlook]
    simp
  | some n =>
    cases n with
    | file nm =>
      by_cases hm : ex.is_match f = true
      · simp only [walkFolder, hlook, if_pos hm]
        refine ⟨hroot, ?_⟩
        intro p hp
        simp at hp
      · simp only [walkFolder, hlook, if_neg hm]
        have hmf : ex.is_match f = false := by
          cases hmm : ex.is_match f with
          | false => rfl
          | true => exact absurd hmm hm
        refine ⟨hroot, ?_⟩
        intro p hp
        rw [List.mem_singleton] at hp
        subst hp
        exact ⟨List.mem_singleton.mpr rfl, hmf⟩
    | dir nm cs =>
      by_cases hm : ex.is_match f = true
      · simp only [walkFolder, hlook, if_pos hm]
        refine ⟨hroot, ?_⟩
        intro p hp
        simp at hp
      · simp only [walkFolder, hlook, if_neg hm]
        have hmf : ex.is_match f = false := by
          cases hmm : ex.is_match f with
          | false => rfl
          | true => exact absurd hmm hm
        obtain ⟨hc1, hc2⟩ := walkChildren_spec ex f cs
        constructor
        · intro p hp
          rcases List.mem_cons.mp hp with rfl | hp'
          · refine ⟨List.prefix_rfl, ?_⟩
            intro q hq1 hq2 hq4
            exact absurd (hq1.eq_of_length_le hq2.length_le).symm hq4
          · obtain ⟨⟨hpre, hne⟩, hmid⟩ := hc1 p hp'
            refine ⟨hpre, ?_⟩
            intro q hq1 hq2 hq4
            by_cases hqf : q = f
            · rw [hqf]
              exact hmf
            · exact hmid q hq1 hq2 hqf hq4
        · intro p hp
          rcases List.mem_cons.mp hp with rfl | hp'
          · exact ⟨List.mem_cons_self _ _, hmf⟩
          · obtain ⟨ht, hnm⟩ := hc2 p hp'
            exact ⟨List.mem_cons_of_mem _ ht, hnm⟩

/-- Every path in the tested log of a multi-folder walk comes from the walk
of one of the folders. -/
theorem mem_walkFolders_tested (ex : GlobSet) (fs : List FNode) :
    ∀ (l : List FsPath) (p : FsPath), p ∈ (walkFolders ex fs l).1 →
      ∃ f ∈ l, p ∈ (walkFolder ex fs f).1 := by
  intro l
  induction l with
  | nil =>
    intro p hp
    simp [walkFolders] at hp
  | cons f rest ih =>
    intro p hp
    simp only [walkFolders] at hp
    rcases List.mem_append.mp hp with h | h
    · exact ⟨f, List.mem_cons_self f rest, h⟩
    · obtain ⟨g, hg, hpg⟩ := ih p h
      exact ⟨g, List.mem_cons_of_mem f hg, hpg⟩

/-- Every path in the stored log of a multi-folder walk comes from the walk
of one of the folders. -/
theorem mem_walkFolders_stored (ex : GlobSet) (fs : List FNode) :
    ∀ (l : List FsPath) (p : FsPath), p ∈ (walkFolders ex fs l).2 →
      ∃ f ∈ l, p ∈ (walkFolder ex fs f).2 := by
  intro l
  induction l with
  | nil =>
    intro p hp
    simp [walkFolders] at hp
  | cons f rest ih =>
    intro p hp
    simp only [walkFolders] at hp
    rcases List.mem_append.mp hp with h | h
    · exact ⟨f, List.mem_cons_self f rest, h⟩
    · obtain ⟨g, hg, hpg⟩ := ih p h
      exact ⟨g, List.mem_cons_of_mem f hg, hpg⟩

/-! ### Claim C2 -/

/-- C2 counterexample: with the overlapping folders `/data` and
`/data/cache/sub` and exclusion `**/cache`, the directory `/data/cache`
matches the matcher (and is pruned during the walk of `/data`), yet the walk
of the nested folder tests and inserts `/data/cache/sub`, a path strictly
beneath it, so the claim as stated fails. -/
theorem C2_counterexample :
    GlobSet.is_match ⟨targetNested.exclusions⟩
      [['d', 'a', 't', 'a'], ['c', 'a', 'c', 'h', 'e']] = true ∧
    targetNested.generate_files fsNested = some
      ([[['d', 'a', 't', 'a']],
        [['d', 'a', 't', 'a'], ['c', 'a', 'c', 'h', 'e']],
        [['d', 'a', 't', 'a'], ['a', '.', 't', 'x', 't']],
        [['d', 'a', 't', 'a'], ['c', 'a', 'c', 'h', 'e'], ['s', 'u', 'b']],
        [['d', 'a', 't', 'a'], ['c', 'a', 'c', 'h', 'e'], ['s', 'u', 'b'],
          ['x', '.', 'b', 'i', 'n']]],
       [[['d', 'a', 't', 'a']],
        [['d', 'a', 't', 'a'], ['a', '.', 't', 'x', 't']],
        [['d', 'a', 't', 'a'], ['c', 'a', 'c', 'h', 'e'], ['s', 'u', 'b']],
        [['d', 'a', 't', 'a'], ['c', 'a', 'c', 'h', 'e'], ['s', 'u', 'b'],
          ['x', '.', 'b', 'i', 'n']]]) ∧
    [['d', 'a', 't', 'a'], ['c', 'a', 'c', 'h', 'e'], ['s', 'u', 'b']] ∈
      [[['d', 'a', 't', 'a']],
       [['d', 'a', 't', 'a'], ['a', '.', 't', 'x', 't']],
       [['d', 'a', 't', 'a'], ['c', 'a', 'c', 'h', 'e'], ['s', 'u', 'b']],
       [['d', 'a', 't', 'a'], ['c', 'a', 'c', 'h', 'e'], ['s', 'u', 'b'],
         ['x', '.', 'b', 'i', 'n']]] ∧
    [['d', 'a', 't', 'a'], ['c', 'a', 'c', 'h', 'e']] <+:
      [['d', 'a', 't', 'a'], ['c', 'a', 'c', 'h', 'e'], ['s', 'u', 'b']] ∧
    ¬ [['d', 'a', 't', 'a'], ['c', 'a', 'c', 'h', 'e']] =
      [['d', 'a', 't', 'a'], ['c', 'a', 'c', 'h', 'e'], ['s', 'u', 'b']] := by
  refine ⟨by decide, ?_, by decide, by decide, by decide⟩
  simp +decide [BackupTarget.generate_files, BackupTarget.get_exclusions_as_globset,
    globSetBuild, walkFolders, walkFolder, walkChildren, lookupPath, lookupRel, findChild,
    targetNested, fsNested, globStarCache]

/-- C2 (amended): during `generate_files`, once a directory matching the
exclusion matcher would be reached it is pruned, so no path strictly beneath a
matching directory is ever tested against the matcher or inserted into the
store, provided no target folder lies strictly beneath that directory (a
nested target folder re-enters the subtree, see the counterexample). -/
theorem C2_amended_pruning (t : BackupTarget) (fs : List FNode) (D : FsPath)
    (tested stored : List FsPath)
    (hgen : t.generate_files fs = some (tested, stored))
    (hD : GlobSet.is_match ⟨t.exclusions⟩ D = true)
    (hfolders : ∀ f ∈ t.folders, ¬ (D <+: f ∧ ¬ D = f)) :
    ∀ p, p ∈ tested ∨ p ∈ stored → ¬ (D <+: p ∧ ¬ D = p) := by
  simp only [BackupTarget.generate_files, get_exclusions_eq_some] at hgen
  have hw := Option.some.inj hgen
  intro p hp
  rintro ⟨hDp, hDne⟩
  have hptested : ∃ f ∈ t.folders, p ∈ (walkFolder ⟨t.exclusions⟩ fs f).1 := by
    rcases hp with h | h
    · apply mem_walkFolders_tested
      have : tested = (walkFolders ⟨t.exclusions⟩ fs t.folders).1 := by
        rw [hw]
      rw [← this]
      exact h
    · have hst : stored = (walkFolders ⟨t.exclusions⟩ fs t.folders).2 := by
        rw [hw]
      rw [hst] at h
      obtain ⟨f, hf, hpf⟩ := mem_walkFolders_stored ⟨t.exclusions⟩ fs t.folders p h
      exact ⟨f, hf, ((walkFolder_spec ⟨t.exclusions⟩ fs f).2 p hpf).1⟩
  obtain ⟨f, hfmem, hpf⟩ := hptested
  obtain ⟨hfp, hscan⟩ := (walkFolder_spec ⟨t.exclusions⟩ fs f).1 p hpf
  have hcomp := List.prefix_or_prefix_of_prefix hDp hfp
  rcases hcomp with hDf | hfD
  · by_cases hDfe : D = f
    · subst hDfe
      have hfalse := hscan D List.prefix_rfl hDp hDne
      rw [hfalse] at hD
      simp at hD
    · exact hfolders f hfmem ⟨hDf, hDfe⟩
  · have hfalse := hscan D hfD hDp hDne
    rw [hfalse] at hD
    simp at hD

/-- C2 witness: with the single folder `/data` (which is not beneath the
matching directory `/data/cache`), the amended pruning theorem applies; its
conclusion is evaluated at the stored path `/data`. -/
theorem C2_witness :
    ¬ ([['d', 'a', 't', 'a'], ['c', 'a', 'c', 'h', 'e']] <+: [['d', 'a', 't', 'a']] ∧
       ¬ [['d', 'a', 't', 'a'], ['c', 'a', 'c', 'h', 'e']] = [['d', 'a', 't', 'a']]) := by
  refine C2_amended_pruning targetData fsNested
    [['d', 'a', 't', 'a'], ['c', 'a', 'c', 'h', 'e']]
    [[['d', 'a', 't', 'a']],
     [['d', 'a', 't', 'a'], ['c', 'a', 'c', 'h', 'e']],
     [['d', 'a', 't', 'a'], ['a', '.', 't', 'x', 't']]]
    [[['d', 'a', 't', 'a']],
     [['d', 'a', 't', 'a'], ['a', '.', 't', 'x', 't']]]
    ?_ (by decide) (by decide) [['d', 'a', 't', 'a']] (Or.inr (by decide))
  simp +decide [BackupTarget.generate_files, BackupTarget.get_exclusions_as_globset,
    globSetBuild, walkFolders, walkFolder, walkChildren, lookupPath, lookupRel, findChild,
    targetData, fsNested, globStarCache]

/-! ### Claim C3 -/

/-- C3: evaluation at the failing input of the code-bug claim.  In `/data`
the file `skipme` matches the exclusion `**/skipme` and the source then calls
`skip_current_dir`, which pops the parent directory's remaining entries: the
sibling file `/data/zz` is never tested nor inserted although it matches no
pattern, so the store holds only `/data`.  (The directory half of the claim
does hold, as the pruned-directory equation `walkChildren_dir_pos` and the
C2 development show: a matching directory is pruned and its siblings are
still walked.) -/
theorem C3_file_match_skips_siblings :
    targetSkip.generate_files fsSkip = some
      ([[['d', 'a', 't', 'a']], [['d', 'a', 't', 'a'], ['s', 'k', 'i', 'p', 'm', 'e']]],
       [[['d', 'a', 't', 'a']]]) ∧
    GlobSet.is_match ⟨targetSkip.exclusions⟩ [['d', 'a', 't', 'a'], ['z', 'z']] = false ∧
    ¬ [['d', 'a', 't', 'a'], ['z', 'z']] ∈ [[['d', 'a', 't', 'a']]] := by
  refine ⟨?_, by decide, by decide⟩
  simp +decide [BackupTarget.generate_files, BackupTarget.get_exclusions_as_globset,
    globSetBuild, walkFolders, walkFolder, walkChildren, lookupPath, lookupRel, findChild,
    targetSkip, fsSkip, globStarSkipme]

/-- C8 witness: the build at a concrete target. -/
theorem C8_witness :
    targetData.get_exclusions_as_globset = some ⟨targetData.exclusions⟩ :=
  C8_get_exclusions_never_fails targetData

/-- C9 witness: with no folders, the classifier answers the not-in-target
outcome even under a canonicalizer on which every lookup fails. -/
theorem C9_witness :
    BackupTarget.check_path_is_in_backup canonFail ⟨[], [globStarCache], []⟩ [['x']] =
        some BackupFileSelectionType.Irreverent ∧
    BackupTarget.check_path_is_in_backupL canonFail ⟨[], [globStarCache], []⟩ [['x']] =
        some BackupFileSelectionTypeL.NotATarget :=
  C9_empty_folders_never_canonicalizes canonFail [globStarCache] [] [['x']]
